import Mathlib

/-!
# Verification of the email-service request pipeline

A shallow embedding of the `send-email` pipeline of the repository:

* `SendEmailService` — the Send-Email Use Case (`sendEmail.service.js`):
  try/catch orchestration returning a uniform response envelope.
* `SendEmailController` — the controller (`sendEmail.controller.js`):
  sets the `route` field and transmits the envelope.
* `ValidationService` — the field validators (`validation.service.js`),
  the hand-compiled regular expressions of `patterns.constants.js`,
  and the request schema (`sendEmail.schema.js`).
* `SendEmailRoutes` — the route wiring (`sendEmail.routes.js`).

JavaScript strings are embedded as `List Char`; machine details that the
claims depend on (JS `.` not matching line terminators, `\b` word
boundaries, `a || b` on strings treating `""` as absent) are made explicit.
-/

/-- JavaScript strings, embedded as lists of characters. -/
abbrev Str := List Char

/-- JS line terminators (`\n`, `\r`, U+2028, U+2029): the characters the
regexp metacharacter `.` does not match. -/
def isLineTerminator (c : Char) : Bool :=
  c == '\n' || c == '\r' || c == '\u2028' || c == '\u2029'

/-- JS whitespace (`\s`, and the set removed by `String.prototype.trim`):
space, `\t`, `\n`, `\v`, `\f`, `\r`, NBSP, Ogham space, U+2000–U+200A,
U+2028, U+2029, U+202F, U+205F, U+3000, BOM. -/
def isJsWhitespace (c : Char) : Bool :=
  c == ' ' || c == '\t' || c == '\n' || c == '\u000B' || c == '\u000C' ||
  c == '\r' || c == '\u00A0' || c == '\u1680' ||
  ('\u2000' ≤ c && c ≤ '\u200A') ||
  c == '\u2028' || c == '\u2029' || c == '\u202F' || c == '\u205F' ||
  c == '\u3000' || c == '\uFEFF'

/-- JS word characters (`\w`): ASCII letters, digits and underscore. -/
def isWordChar (c : Char) : Bool :=
  ('a' ≤ c && c ≤ 'z') || ('A' ≤ c && c ≤ 'Z') || ('0' ≤ c && c ≤ '9') || c == '_'

/-- `[A-Z]`. -/
def isUpperAZ (c : Char) : Bool := 'A' ≤ c && c ≤ 'Z'

/-- `[a-z]`. -/
def isLowerAZ (c : Char) : Bool := 'a' ≤ c && c ≤ 'z'

/-- `[a-zA-Z]`. -/
def isAlphaChar (c : Char) : Bool := isLowerAZ c || isUpperAZ c

/-- `[0-9]`. -/
def isDigitChar (c : Char) : Bool := '0' ≤ c && c ≤ '9'

/-- `[a-zA-Z\-0-9]`, the domain-label characters of the `EMAIL` pattern. -/
def isLabelChar (c : Char) : Bool := isAlphaChar c || isDigitChar c || c == '-'

/-- JS `String.prototype.trim`: strip leading and trailing JS whitespace. -/
def trimStr (s : Str) : Str :=
  ((s.dropWhile isJsWhitespace).reverse.dropWhile isJsWhitespace).reverse

namespace SendEmailService

/-- Modelled from the spec: the HTTP status constants consumed by the use
case (`httpStatus.constants.js` is not in `src/`); §6 fixes 201 ("Created")
and 500 ("Internal Server Error"). -/
def CREATED : Nat := 201

/-- Modelled from the spec: see `CREATED`. -/
def INTERNAL_SERVER_ERROR : Nat := 500

/-- The delivery acknowledgment returned by the Transport Client on
success (§4.4: provider message id, accepted/rejected recipient lists). -/
structure TransportResult where
  messageId : String
  accepted : List String := []
  rejected : List String := []
deriving DecidableEq

/-- The uniform response envelope of §3:
`{ status, message, route?, data? }`. -/
structure Envelope where
  status : Nat
  message : String
  data : Option TransportResult := none
  route : Option String := none
deriving DecidableEq

/-- A thrown JS error as observed by the catch block: its `message`
property may be absent (`none`) or any string, including `""`. -/
structure JsError where
  message : Option String := none
deriving DecidableEq

/-- JS `a || b` where `a` is a possibly-absent string property: the
fallback is used when `a` is `undefined` or the empty string (falsy). -/
def jsOrElse : Option String → String → String
  | some m, fb => if m = "" then fb else m
  | none, fb => fb

/-- Modelled from the spec: the success envelope builder
`sendResponse(data, message, status)` (`utilities/sendResponse.js` is not
in `src/`); §4.7 specifies a pure constructor returning the §3 envelope
shape, with `route` absent until the controller appends it. -/
def sendResponse (data : TransportResult) (message : String) (status : Nat) : Envelope :=
  { status := status, message := message, data := some data, route := none }

/-- Modelled from the spec: the error envelope builder
`errorResponse(message, status)` (`utilities/errorResponse.js` is not in
`src/`); §4.7, §6: no `data` payload on the 500 shape. -/
def errorResponse (message : String) (status : Nat) : Envelope :=
  { status := status, message := message, data := none, route := none }

/-- The request payload as seen by the use case: `none` models
`undefined`/`null`, and each field of an object payload may be absent. -/
structure EmailData where
  subject : Option String := none
  email : Option String := none
deriving DecidableEq

/-- The five template fields of §3 (`PreparedEmailContent`). -/
structure PreparedEmailContent where
  pageTitle : String
  preheaderText : String
  heroSection : String
  mainSection : String
  footerContent : String
deriving DecidableEq

/-- Modelled from the spec: `prepareEmailContent(subject, emailData)`
(`shared/prepareEmailContent.js` is not in `src/`); §4.2: a deterministic
pure function of the subject (and raw payload) that falls back to a
default content shape when the subject is absent. -/
def prepareEmailContent (subject : Option String) (_raw : EmailData) : PreparedEmailContent :=
  match subject with
  | some s =>
      { pageTitle := s
        preheaderText := "Preview: " ++ s
        heroSection := "Hero: " ++ s
        mainSection := "Main: " ++ s
        footerContent := "Footer" }
  | none =>
      { pageTitle := "Notification"
        preheaderText := "Preview"
        heroSection := "Hero"
        mainSection := "Main"
        footerContent := "Footer" }

/-- Modelled from the spec: the renderer `prepareEmail(pageTitle,
preheaderText, heroSection, mainSection, footerContent)`
(`shared/prepareEmail.js` is not in `src/`); §4.3: a pure total function
composing the five fields into one HTML string. -/
def prepareEmail (pageTitle preheaderText heroSection mainSection footerContent : String) : String :=
  "<html><head><title>" ++ pageTitle ++ "</title></head><body>" ++
    preheaderText ++ heroSection ++ mainSection ++ footerContent ++ "</body></html>"

/-- The Transport Client collaborator (§4.4, `EmailService.sendEmail(to,
subject, html)`): called with the possibly-absent `email` and `subject`
properties and the rendered HTML; either returns a delivery result or
throws (`Except.error`). -/
def Transport : Type :=
  Option String → Option String → String → Except JsError TransportResult

/-- The HTML the use case hands to the transport for a given payload. -/
def renderedEmail (d : EmailData) : String :=
  let c := prepareEmailContent d.subject d
  prepareEmail c.pageTitle c.preheaderText c.heroSection c.mainSection c.footerContent

/-- The message of the `TypeError` thrown by `emailData.email` when
`emailData` is `undefined`/`null` (line 23 of the use case). -/
def typeErrorMessage : String :=
  "Cannot read properties of undefined (reading 'email')"

/-- The body of the `try` block of the use case (lines 14–38): destructure
the prepared content, call the transport. The property access
`emailData.email` throws when `emailData` is absent; any transport throw
is propagated to the catch block. -/
def tryBody (transport : Transport) (emailData : Option EmailData) :
    Except JsError TransportResult :=
  match emailData with
  | none => Except.error { message := some typeErrorMessage }
  | some d => transport d.email d.subject (renderedEmail d)

/-- The Send-Email Use Case `sendEmail(emailData)` (lines 12–47): on a
normal return of the try body, the success envelope with status 201 and
message `"Email send successfully."`; on any throw, the error envelope
with status 500 and `error.message || 'Failed to end email.'`. -/
def sendEmail (transport : Transport) (emailData : Option EmailData) : Envelope :=
  match tryBody transport emailData with
  | Except.ok r => sendResponse r "Email send successfully." CREATED
  | Except.error e =>
      errorResponse (jsOrElse e.message "Failed to end email.") INTERNAL_SERVER_ERROR

end SendEmailService

namespace SendEmailController

open SendEmailService

/-- The controller body (`sendEmail.controller.js`, lines 7–12): await the
use case's envelope, set its `route` field to `req.originalUrl`, and
respond with HTTP status `envelope.status` and the envelope as body.
Returns the transmitted `(status code, body)` pair. -/
def respond (envelope : Envelope) (originalUrl : String) : Nat × Envelope :=
  let e := { envelope with route := some originalUrl }
  (e.status, e)

end SendEmailController

namespace ValidationService

/-- A JSON value of a request body, as delivered by the body parser. -/
inductive JsonValue where
  | str (s : Str)
  | num (n : Int)
  | boolean (b : Bool)
  | null
  | obj (fields : List (String × JsonValue))

/-- The Joi error codes the embedded schema can produce, together with the
data their messages carry.  `patternName` is `string.pattern.name` (the
named `no-temp-email` regex of the email field), `patternBase` is
`string.pattern.base` (the unnamed `EMAIL` pattern). -/
inductive VErr where
  | stringBase
  | stringEmpty
  | stringTrim
  | stringMin
  | stringMax
  | stringEmail
  | patternName
  | patternBase
  | anyRequired (key : String)
  | objectUnknown (key : String)
  | objectBase
deriving DecidableEq

/-- The `string.pattern.name` message set in `sendEmail.schema.js` via
`validation.service.js`. -/
def patternNameMessage : String := "\"email\" must not be a temporary email address"

/-- The `string.pattern.base` message of the email field
(`validation.service.js`, line 39). -/
def patternBaseMessage : String := "Please fill a valid email address."

/-- `needle` occurs at the start of `hay`. -/
def startsWithStr : Str → Str → Bool
  | [], _ => true
  | _ :: _, [] => false
  | n :: ns, h :: hs => n == h && startsWithStr ns hs

/-- `needle` occurs as a contiguous substring of `hay`. -/
def containsSub (n : Str) : Str → Bool
  | [] => startsWithStr n []
  | c :: cs => startsWithStr n (c :: cs) || containsSub n cs

/-- The specification-level substring relation: `n` occurs contiguously
inside `h`. -/
def occursIn (n h : Str) : Prop := ∃ p q, h = p ++ n ++ q

/-- Hand-compilation of the anchored deny regex
`/^((?!tempmail|mailinator|yopmail).)*$/` applied by
`validation.service.js` line 33.  The regex consumes the whole string one
character at a time; each consumed character must be matched by `.` (so it
is not a line terminator) and must not start one of the three forbidden
words.  Hence it matches exactly the strings with no line terminator and
no occurrence of `tempmail`, `mailinator` or `yopmail`. -/
def matchesNoTempRegex (s : Str) : Bool :=
  s.all (fun c => !isLineTerminator c) &&
  !containsSub "tempmail".toList s &&
  !containsSub "mailinator".toList s &&
  !containsSub "yopmail".toList s

/-- `\btemp\b` matches at the current position, `prev` being the character
immediately before it (`none` at the start of the string). -/
def wordTempHere (prev : Option Char) (s : Str) : Bool :=
  match s with
  | c1 :: c2 :: c3 :: c4 :: rest =>
      c1 == 't' && c2 == 'e' && c3 == 'm' && c4 == 'p' &&
      (match prev with | none => true | some c => !isWordChar c) &&
      (match rest with | [] => true | c :: _ => !isWordChar c)
  | _ => false

/-- Hand-compilation of the lookahead body `.*\btemp\b` of the `EMAIL`
pattern, started at the current position with preceding character `prev`:
either `\btemp\b` matches here, or `.*` consumes one more (non-line-
terminator) character and the search continues. -/
def lookaheadTemp (prev : Option Char) : Str → Bool
  | [] => false
  | c :: cs => wordTempHere prev (c :: cs) || (!isLineTerminator c && lookaheadTemp (some c) cs)

/-- Split a string at every `.` (the separators are consumed); always
returns at least one part. -/
def splitOnDot : Str → List Str
  | [] => [[]]
  | c :: cs =>
      if c == '.' then [] :: splitOnDot cs
      else
        match splitOnDot cs with
        | [] => [[c]]
        | p :: ps => (c :: p) :: ps

/-- The characters of a local-part atom of the `EMAIL` pattern:
`[^<>()\[\]\\.,;:\s@"]`. -/
def isLocalAtomChar (c : Char) : Bool :=
  !(c == '<' || c == '>' || c == '(' || c == ')' || c == '[' || c == ']' ||
    c == '\\' || c == '.' || c == ',' || c == ';' || c == ':' || c == '@' ||
    c == '"') && !isJsWhitespace c

/-- Hand-compilation of the unquoted local-part alternative
`[^…]+(\.[^…]+)*`: dot-separated nonempty atoms.  The flag records whether
the current atom already holds at least one character. -/
def atomsAux : Bool → Str → Bool
  | started, [] => started
  | started, c :: cs =>
      if c == '.' then started && atomsAux false cs
      else isLocalAtomChar c && atomsAux true cs

/-- Hand-compilation of the quoted local-part alternative `".+"`: an
opening quote, at least one character matched by `.` (not a line
terminator), and a closing quote. -/
def quotedOk (l : Str) : Bool :=
  match l with
  | [] => false
  | c :: cs =>
      c == '"' &&
      (match cs.getLast? with | some d => d == '"' | none => false) &&
      !cs.dropLast.isEmpty &&
      cs.dropLast.all (fun c => !isLineTerminator c)

/-- The local-part group of the `EMAIL` pattern. -/
def localOk (l : Str) : Bool := atomsAux false l || quotedOk l

/-- Hand-compilation of the bracketed-IP domain alternative
`\[[0-9]{1,3}\.[0-9]{1,3}\.[0-9]{1,3}\.[0-9]{1,3}]`. -/
def ipOk (d : Str) : Bool :=
  match d with
  | [] => false
  | c :: cs =>
      c == '[' &&
      (match cs.getLast? with | some e => e == ']' | none => false) &&
      (let ps := splitOnDot cs.dropLast
       decide (ps.length = 4) &&
       ps.all (fun p => decide (1 ≤ p.length) && decide (p.length ≤ 3) && p.all isDigitChar))

/-- Hand-compilation of the named-host domain alternative
`([a-zA-Z\-0-9]+\.)+[a-zA-Z]{2,}`: at least one nonempty label, a dot
before each further segment, and a trailing alphabetic TLD of length ≥ 2.
Equivalently: the dot-separated parts are ≥ 2, every part but the last is
a nonempty label, and the last is an alphabetic part of length ≥ 2. -/
def dnsOk (d : Str) : Bool :=
  let ps := splitOnDot d
  decide (2 ≤ ps.length) &&
  ps.dropLast.all (fun p => !p.isEmpty && p.all isLabelChar) &&
  (match ps.getLast? with
   | some t => decide (2 ≤ t.length) && t.all isAlphaChar
   | none => false)

/-- The domain group of the `EMAIL` pattern. -/
def domainOk (d : Str) : Bool := ipOk d || dnsOk d

/-- All decompositions `s = l ++ '@' :: d`, in order of the position of
the `@`; the backtracking regex engine tries them all. -/
def splitsAt : Str → List (Str × Str)
  | [] => []
  | c :: cs =>
      (if c == '@' then [(([] : Str), cs)] else []) ++
      (splitsAt cs).map (fun p => (c :: p.1, p.2))

/-- The anchored structural part `(local)@(domain)` of the `EMAIL`
pattern: some decomposition at an `@` has a matching local part and a
matching domain. -/
def emailShapeOk (s : Str) : Bool :=
  (splitsAt s).any (fun p => localOk p.1 && domainOk p.2)

/-- Hand-compilation of the full `EMAIL` pattern of
`patterns.constants.js`:
`/^(?!.*\btemp\b)(local)@(domain)$/` — the negative lookahead for a
standalone word `temp`, then the structural match. -/
def matchesEmailPattern (s : Str) : Bool :=
  !lookaheadTemp none s && emailShapeOk s

/-- The specification-level predicate of the implicit deny rule: the
string contains `temp` as a standalone word — an occurrence of the four
letters with no JS word character immediately before or after (the
`\btemp\b` of the lookahead). -/
def hasStandaloneTemp (s : Str) : Prop :=
  ∃ p q, s = p ++ "temp".toList ++ q ∧
    (∀ c, p.getLast? = some c → isWordChar c = false) ∧
    (∀ c, q.head? = some c → isWordChar c = false)

/-- Models the external Joi `string.email` rule (the `joi` library is not
repository code) as configured in `validation.service.js`:
`minDomainSegments: 2` and TLD checking — exactly one `@`, a nonempty
local part, and a domain of at least two nonempty dot-separated segments
whose last segment is an alphabetic TLD of length ≥ 2. -/
def joiEmailOk (s : Str) : Bool :=
  decide (s.count '@' = 1) &&
  (let l := s.takeWhile (fun c => !(c == '@'))
   let d := (s.dropWhile (fun c => !(c == '@'))).drop 1
   !l.isEmpty &&
   (let ps := splitOnDot d
    decide (2 ≤ ps.length) &&
    ps.all (fun p => !p.isEmpty) &&
    (match ps.getLast? with
     | some t => decide (2 ≤ t.length) && t.all isAlphaChar
     | none => false)))

/-- The application of `createStringField(min, max)` from
`validation.service.js` (`Joi.string().trim().min(min).max(max)`) to one
value, under the validation options the pipeline uses: `convert: false`
(the schema's `.strict()`, inherited by its keys, so `.trim()` acts as a
rule rather than a transform) and `abortEarly: false` (all failing rules
are collected — the aggregation contract of §4.5/§7).  A non-string value
fails the base type check; an empty string fails Joi's base empty-string
check and no further rule runs on it.  Rules appear in declaration
order. -/
def createStringFieldErrors (min max : Nat) (v : JsonValue) : List VErr :=
  match v with
  | JsonValue.str s =>
      if s.isEmpty then [VErr.stringEmpty]
      else
        (if trimStr s ≠ s then [VErr.stringTrim] else []) ++
        (if s.length < min then [VErr.stringMin] else []) ++
        (if max < s.length then [VErr.stringMax] else [])
  | _ => [VErr.stringBase]

/-- The application of `emailField` from `validation.service.js` to one
value, under the same options as `createStringFieldErrors`: the
`createStringField` rules, then `.email({minDomainSegments: 2, tlds:
{allow: true}})`, then the named `no-temp-email` deny regex, then the
`EMAIL` pattern of `patterns.constants.js`. -/
def emailFieldErrors (min max : Nat) (v : JsonValue) : List VErr :=
  match v with
  | JsonValue.str s =>
      if s.isEmpty then [VErr.stringEmpty]
      else
        (if trimStr s ≠ s then [VErr.stringTrim] else []) ++
        (if s.length < min then [VErr.stringMin] else []) ++
        (if max < s.length then [VErr.stringMax] else []) ++
        (if !joiEmailOk s then [VErr.stringEmail] else []) ++
        (if !matchesNoTempRegex s then [VErr.patternName] else []) ++
        (if !matchesEmailPattern s then [VErr.patternBase] else [])
  | _ => [VErr.stringBase]

/-- The "Capitalized Words" subject shape, transcribed from the message
text of `sendEmail.schema.js` (line 33): each word starts with an
uppercase letter followed by lowercase letters, words are separated by a
single space, and nothing else is allowed — the regex
`^[A-Z][a-z]*( [A-Z][a-z]*)*$`.  The flag records whether the scanner is
at a mandatory word start. -/
def capWordsAux : Bool → Str → Bool
  | needUpper, [] => !needUpper
  | true, c :: cs => isUpperAZ c && capWordsAux false cs
  | false, c :: cs =>
      if c == ' ' then capWordsAux true cs
      else isLowerAZ c && capWordsAux false cs

/-- See `capWordsAux`. -/
def capitalizedWords (s : Str) : Bool := capWordsAux true s

/-- The configured length bounds of the schema
(`sendEmailConstants.lengths` and `constants.lengths` come from constant
files that are not in `src/`; the spec only names them, so they stay
abstract parameters). -/
structure SchemaBounds where
  subjectMin : Nat
  subjectMax : Nat
  emailMin : Nat
  emailMax : Nat

/-- The keys declared by `sendEmailSchemaBase`. -/
def declaredKeys : List String := ["subject", "email"]

/-- The application of the forked schema `sendEmailSchema.sendEmail`
(`sendEmail.schema.js`) to a request body: a `Joi.object` with keys
`subject` (`createStringField`) and `email` (`emailField`), both
`required()` after the fork, validated with `.strict()`; keys not
declared are rejected (Joi objects disallow unknown keys by default).
All violations are collected (`abortEarly: false`). -/
def validateSendEmailBody (b : SchemaBounds) (body : JsonValue) : List VErr :=
  match body with
  | JsonValue.obj fields =>
      (match List.lookup "subject" fields with
       | some v => createStringFieldErrors b.subjectMin b.subjectMax v
       | none => [VErr.anyRequired "subject"]) ++
      (match List.lookup "email" fields with
       | some v => emailFieldErrors b.emailMin b.emailMax v
       | none => [VErr.anyRequired "email"]) ++
      ((fields.map Prod.fst).filter (fun k => !declaredKeys.contains k)).map VErr.objectUnknown
  | _ => [VErr.objectBase]

end ValidationService

namespace SendEmailRoutes

open ValidationService

/-- The two middleware stages a POST handler chain can contain:
the request validator (`sendEmailValidator.sendEmail`) and the
controller (`sendEmailController.sendEmail`). -/
inductive Handler where
  | validate
  | control

/-- The POST `/send-email` handler chain exactly as wired in
`sendEmail.routes.js` (lines 12–17): the validator middleware line is
commented out, so the chain holds only the controller. -/
def postHandlers : List Handler := [Handler.control]

/-- The handler chain with the commented-out validator line restored:
validator first, then the controller. -/
def validatedPostHandlers : List Handler := [Handler.validate, Handler.control]

/-- What a request to the route produces: either the validator
short-circuited with a structured validation-error response (a 4xx, per
§4.5/§7), or the controller ran, i.e. the Send-Email Use Case was invoked
on the body. -/
inductive Outcome where
  | validationError (errs : List VErr)
  | useCaseInvoked (body : JsonValue)

/-- Modelled from the spec: running a handler chain on a request body.
`validateWithSchema` (`shared/validateWithSchema.js` is not in `src/`) is
modelled on §4.5: it validates the declared request section against the
declared schema, short-circuits with a structured 4xx validation error
aggregating every violation when invalid, and otherwise passes control to
the next stage unchanged.  The controller invokes the use case. -/
def runPipeline (b : SchemaBounds) : List Handler → JsonValue → Option Outcome
  | [], _ => none
  | Handler.validate :: rest, body =>
      if validateSendEmailBody b body = [] then runPipeline b rest body
      else some (Outcome.validationError (validateSendEmailBody b body))
  | Handler.control :: _, body => some (Outcome.useCaseInvoked body)

end SendEmailRoutes

/-! ## Theorems -/

open SendEmailService SendEmailController ValidationService SendEmailRoutes

/-- C1: For every input `emailData` (including `undefined`/`null` and
payloads missing `subject` or `email`), the Send-Email Use Case returns a
well-formed envelope — either the 201 success shape or the 500 error
shape — and never propagates a fault: every throw inside the `try` body,
including the `TypeError` on an absent payload and any transport error,
is caught and converted. -/
theorem sendEmail_always_wellformed_envelope (t : Transport) (d : Option EmailData) :
    (∃ r : TransportResult,
        SendEmailService.sendEmail t d = sendResponse r "Email send successfully." 201) ∨
    (∃ m : String, SendEmailService.sendEmail t d = errorResponse m 500) := by
  unfold SendEmailService.sendEmail
  cases h : tryBody t d with
  | ok r => exact Or.inl ⟨r, rfl⟩
  | error e => exact Or.inr ⟨jsOrElse e.message "Failed to end email.", rfl⟩

/-- C2: Whenever the Transport Client succeeds on the request, the use
case returns the envelope with status 201 (Created), message exactly
`"Email send successfully."`, and the transport's delivery result as the
`data` payload. -/
theorem sendEmail_success_envelope (t : Transport) (d : EmailData) (r : TransportResult)
    (h : t d.email d.subject (renderedEmail d) = Except.ok r) :
    SendEmailService.sendEmail t (some d) =
      { status := 201, message := "Email send successfully.", data := some r,
        route := none } := by
  unfold SendEmailService.sendEmail
  rw [show tryBody t (some d) = Except.ok r from h]
  rfl

/-- Witness for C2: the valid request of §8 with an always-succeeding
transport stub yields the 201 envelope. -/
theorem sendEmail_success_envelope_witness :
    SendEmailService.sendEmail (fun _ _ _ => Except.ok ⟨"id-1", [], []⟩)
        (some ⟨some "Weekly Update", some "user@example.com"⟩) =
      { status := 201, message := "Email send successfully.",
        data := some ⟨"id-1", [], []⟩, route := none } :=
  sendEmail_success_envelope (fun _ _ _ => Except.ok ⟨"id-1", [], []⟩)
    ⟨some "Weekly Update", some "user@example.com"⟩ ⟨"id-1", [], []⟩ rfl

/-- C3: Whenever the Transport Client throws, the use case returns the
500 envelope whose message is `error.message || 'Failed to end email.'`:
the thrown error's message when present and nonempty, the fixed fallback
otherwise. -/
theorem sendEmail_transport_error_envelope (t : Transport) (d : EmailData) (e : JsError)
    (h : t d.email d.subject (renderedEmail d) = Except.error e) :
    SendEmailService.sendEmail t (some d) =
        errorResponse (jsOrElse e.message "Failed to end email.") 500 ∧
    (∀ m : String, e.message = some m → m ≠ "" →
        jsOrElse e.message "Failed to end email." = m) ∧
    (e.message = none →
        jsOrElse e.message "Failed to end email." = "Failed to end email.") := by
  refine ⟨?_, ?_, ?_⟩
  · unfold SendEmailService.sendEmail
    rw [show tryBody t (some d) = Except.error e from h]
    rfl
  · intro m hm hne
    rw [hm]
    simp [jsOrElse, hne]
  · intro hm
    rw [hm]
    rfl

/-- Witness for C3: a transport stub failing with message
`"connection refused"` yields the 500 envelope with that message. -/
theorem sendEmail_transport_error_envelope_witness :
    SendEmailService.sendEmail (fun _ _ _ => Except.error ⟨some "connection refused"⟩)
        (some ⟨some "Weekly Update", some "user@example.com"⟩) =
      errorResponse "connection refused" 500 := by
  have h := sendEmail_transport_error_envelope
    (fun _ _ _ => Except.error ⟨some "connection refused"⟩)
    ⟨some "Weekly Update", some "user@example.com"⟩ ⟨some "connection refused"⟩ rfl
  have h2 := h.2.1 "connection refused" rfl (by decide)
  rw [h.1, h2]

/-- C9: After the use case constructs the envelope, the controller's only
mutation before transmission is setting `route` to the request's original
URL; `status`, `message` and `data` are unchanged, and the transmitted
HTTP status code equals the envelope's `status` field. -/
theorem controller_sets_route_only (env : Envelope) (url : String) :
    (respond env url).1 = env.status ∧
    (respond env url).2.status = env.status ∧
    (respond env url).2.message = env.message ∧
    (respond env url).2.data = env.data ∧
    (respond env url).2.route = some url :=
  ⟨rfl, rfl, rfl, rfl, rfl⟩

/-- A string starts with itself followed by anything. -/
lemma startsWithStr_self_append (n q : Str) : startsWithStr n (n ++ q) = true := by
  induction n with
  | nil => rfl
  | cons c cs ih => simp [startsWithStr, ih]

/-- A match at the current position is an occurrence. -/
lemma containsSub_here (n h : Str) (hs : startsWithStr n h = true) :
    containsSub n h = true := by
  cases h with
  | nil => exact hs
  | cons c cs => simp [containsSub, hs]

/-- An explicit decomposition is found by the substring search. -/
lemma containsSub_append (n p q : Str) : containsSub n (p ++ n ++ q) = true := by
  induction p with
  | nil => simpa using containsSub_here n (n ++ q) (startsWithStr_self_append n q)
  | cons a p ih => simp [containsSub, List.cons_append]; right; simpa using ih

/-- C5: Every string containing `tempmail`, `mailinator` or `yopmail` as a
case-sensitive literal substring anywhere is rejected by the email field
validator (the named `no-temp-email` deny regex fails), regardless of the
configured length bounds and of otherwise-valid syntax. -/
theorem emailField_rejects_disposable (emin emax : Nat) (s : Str)
    (h : occursIn "tempmail".toList s ∨ occursIn "mailinator".toList s ∨
         occursIn "yopmail".toList s) :
    VErr.patternName ∈ emailFieldErrors emin emax (JsonValue.str s) ∧
    emailFieldErrors emin emax (JsonValue.str s) ≠ [] := by
  have hno : matchesNoTempRegex s = false := by
    rcases h with ⟨p, q, rfl⟩ | ⟨p, q, rfl⟩ | ⟨p, q, rfl⟩
    · have hc := containsSub_append "tempmail".toList p q
      unfold matchesNoTempRegex
      rw [hc]
      simp
    · have hc := containsSub_append "mailinator".toList p q
      unfold matchesNoTempRegex
      rw [hc]
      simp
    · have hc := containsSub_append "yopmail".toList p q
      unfold matchesNoTempRegex
      rw [hc]
      simp
  have hne : s.isEmpty = false := by
    rcases h with ⟨p, q, rfl⟩ | ⟨p, q, rfl⟩ | ⟨p, q, rfl⟩ <;>
      cases p <;> simp [List.isEmpty]
  have hmem : VErr.patternName ∈ emailFieldErrors emin emax (JsonValue.str s) := by
    simp [emailFieldErrors, hne, hno, List.mem_append]
  exact ⟨hmem, List.ne_nil_of_mem hmem⟩

/-- Witness for C5: `user@tempmail.com` is rejected even though it is a
syntactically valid address. -/
theorem emailField_rejects_disposable_witness :
    VErr.patternName ∈ emailFieldErrors 5 100 (JsonValue.str "user@tempmail.com".toList) ∧
    emailFieldErrors 5 100 (JsonValue.str "user@tempmail.com".toList) ≠ [] :=
  emailField_rejects_disposable 5 100 "user@tempmail.com".toList
    (Or.inl ⟨"user@".toList, ".com".toList, by decide⟩)

/-- C7: Every string failing the syntactic email rule is rejected by the
email field validator; for nonempty strings the `string.email` format
violation is among the collected errors (the empty string is rejected
through the base empty-string check instead). -/
theorem emailField_rejects_bad_syntax (emin emax : Nat) (s : Str)
    (h : joiEmailOk s = false) :
    emailFieldErrors emin emax (JsonValue.str s) ≠ [] ∧
    (s ≠ [] → VErr.stringEmail ∈ emailFieldErrors emin emax (JsonValue.str s)) := by
  cases s with
  | nil => exact ⟨by simp [emailFieldErrors, List.isEmpty], fun hc => absurd rfl hc⟩
  | cons c cs =>
      have hne : (c :: cs : Str).isEmpty = false := by simp [List.isEmpty]
      have hmem : VErr.stringEmail ∈ emailFieldErrors emin emax (JsonValue.str (c :: cs)) := by
        simp [emailFieldErrors, hne, h, List.mem_append]
      exact ⟨List.ne_nil_of_mem hmem, fun _ => hmem⟩

/-- Witness for C7: `not-an-email` (no `@` at all) is rejected with the
format violation. -/
theorem emailField_rejects_bad_syntax_witness :
    emailFieldErrors 5 100 (JsonValue.str "not-an-email".toList) ≠ [] ∧
    ("not-an-email".toList ≠ [] →
      VErr.stringEmail ∈ emailFieldErrors 5 100 (JsonValue.str "not-an-email".toList)) :=
  emailField_rejects_bad_syntax 5 100 "not-an-email".toList (by decide)

/-- C8: A request body holding any field other than `subject` and `email`
is rejected by the schema: the undeclared key produces an unknown-field
violation, so validation fails. -/
theorem schema_rejects_unknown_fields (b : SchemaBounds)
    (fields : List (String × JsonValue)) (k : String) (v : JsonValue)
    (hmem : (k, v) ∈ fields) (hk : k ∉ declaredKeys) :
    VErr.objectUnknown k ∈ validateSendEmailBody b (JsonValue.obj fields) ∧
    validateSendEmailBody b (JsonValue.obj fields) ≠ [] := by
  have hkeys : k ∈ (fields.map Prod.fst).filter (fun k => !declaredKeys.contains k) := by
    refine List.mem_filter.2 ⟨List.mem_map.2 ⟨(k, v), hmem, rfl⟩, ?_⟩
    simpa using hk
  have hmem2 : VErr.objectUnknown k ∈ validateSendEmailBody b (JsonValue.obj fields) := by
    simp only [validateSendEmailBody, List.mem_append]
    exact Or.inr (List.mem_map_of_mem VErr.objectUnknown hkeys)
  exact ⟨hmem2, List.ne_nil_of_mem hmem2⟩

/-- Witness for C8: `{subject, email, extra: 1}` is rejected with an
unknown-field violation on `extra`. -/
theorem schema_rejects_unknown_fields_witness :
    VErr.objectUnknown "extra" ∈ validateSendEmailBody ⟨3, 50, 5, 100⟩
        (JsonValue.obj [("subject", JsonValue.str "Weekly Update".toList),
          ("email", JsonValue.str "user@example.com".toList),
          ("extra", JsonValue.num 1)]) ∧
    validateSendEmailBody ⟨3, 50, 5, 100⟩
        (JsonValue.obj [("subject", JsonValue.str "Weekly Update".toList),
          ("email", JsonValue.str "user@example.com".toList),
          ("extra", JsonValue.num 1)]) ≠ [] :=
  schema_rejects_unknown_fields ⟨3, 50, 5, 100⟩ _ "extra" (JsonValue.num 1)
    (List.Mem.tail _ (List.Mem.tail _ (List.Mem.head _))) (by decide)

/-- ASCII letters are not JS whitespace (they lie strictly between
`' '` (space) and NBSP). -/
lemma letter_not_white (c : Char) (h : isUpperAZ c = true ∨ isLowerAZ c = true) :
    isJsWhitespace c = false := by
  have hb : ('A' ≤ c ∧ c ≤ 'Z') ∨ ('a' ≤ c ∧ c ≤ 'z') := by
    simpa [isUpperAZ, isLowerAZ, Bool.and_eq_true, decide_eq_true_eq] using h
  have hgt : ' ' < c := by
    rcases hb with hb | hb
    · exact lt_of_lt_of_le (by decide) hb.1
    · exact lt_of_lt_of_le (by decide) hb.1
  have hlt : c < '\u00A0' := by
    rcases hb with hb | hb
    · exact lt_of_le_of_lt hb.2 (by decide)
    · exact lt_of_le_of_lt hb.2 (by decide)
  simp only [isJsWhitespace, Bool.or_eq_false_iff, Bool.and_eq_false_iff,
    beq_eq_false_iff_ne, ne_eq, decide_eq_false_iff_not, not_le]
  repeat' apply And.intro
  all_goals first
    | (rintro rfl; revert hgt; decide)
    | (rintro rfl; revert hlt; decide)
    | (exact Or.inl (lt_trans hlt (by decide)))

/-- A list whose head is not whitespace is unchanged by `dropWhile`. -/
lemma dropWhile_white_eq_self (l : Str)
    (h : ∀ c, l.head? = some c → isJsWhitespace c = false) :
    l.dropWhile isJsWhitespace = l := by
  cases l with
  | nil => rfl
  | cons a t => simp [List.dropWhile_cons, h a rfl]

/-- A string whose first and last characters are not whitespace is its
own trim. -/
lemma trimStr_eq_self (s : Str)
    (h1 : ∀ c, s.head? = some c → isJsWhitespace c = false)
    (h2 : ∀ c, s.getLast? = some c → isJsWhitespace c = false) :
    trimStr s = s := by
  unfold trimStr
  rw [dropWhile_white_eq_self s h1]
  rw [dropWhile_white_eq_self s.reverse
    (fun c hc => h2 c (by rwa [List.head?_reverse] at hc))]
  exact List.reverse_reverse s

/-- A capitalized-words string starts with an uppercase letter. -/
lemma capWords_head (c : Char) (t : Str) (h : capitalizedWords (c :: t) = true) :
    isUpperAZ c = true := by
  simp only [capitalizedWords, capWordsAux, Bool.and_eq_true] at h
  exact h.1

/-- A capitalized-words scan that accepts ends on a letter. -/
lemma capWords_last : ∀ (s : Str) (b : Bool), capWordsAux b s = true →
    ∀ c, s.getLast? = some c → isUpperAZ c = true ∨ isLowerAZ c = true := by
  intro s
  induction s with
  | nil => intro b h c hc; simp at hc
  | cons a t ih =>
      intro b h c hc
      cases t with
      | nil =>
          simp only [List.getLast?_singleton, Option.some_inj] at hc
          subst hc
          cases b with
          | true =>
              simp only [capWordsAux, Bool.and_eq_true] at h
              exact Or.inl h.1
          | false =>
              cases hsp : (a == ' ') with
              | true => simp [capWordsAux, hsp] at h
              | false =>
                  simp only [capWordsAux, hsp, Bool.false_eq_true, if_false,
                    Bool.and_eq_true] at h
                  exact Or.inr h.1
      | cons a2 t2 =>
          rw [List.getLast?_cons_cons] at hc
          cases b with
          | true =>
              simp only [capWordsAux, Bool.and_eq_true] at h
              exact ih false h.2 c hc
          | false =>
              cases hsp : (a == ' ') with
              | true =>
                  simp only [capWordsAux, hsp, if_true] at h
                  exact ih true h c hc
              | false =>
                  simp only [capWordsAux, hsp, Bool.false_eq_true, if_false,
                    Bool.and_eq_true] at h
                  exact ih false h.2 c hc

/-- C6: The subject field (`createStringField(SUBJECT_MIN, SUBJECT_MAX)`)
accepts every string of capitalized-words shape whose (trimmed) length
lies in `[SUBJECT_MIN, SUBJECT_MAX]`, and rejects length violations: a
string shorter than `SUBJECT_MIN` yields an emptiness/minimum-length
violation, one longer than `SUBJECT_MAX` the maximum-length violation. -/
theorem subjectField_length_bounds (smin smax : Nat) (s : Str) :
    (capitalizedWords s = true → smin ≤ (trimStr s).length →
        (trimStr s).length ≤ smax →
        createStringFieldErrors smin smax (JsonValue.str s) = []) ∧
    (s.length < smin →
        ∃ e, e ∈ createStringFieldErrors smin smax (JsonValue.str s) ∧
          (e = VErr.stringEmpty ∨ e = VErr.stringMin)) ∧
    (smax < s.length →
        VErr.stringMax ∈ createStringFieldErrors smin smax (JsonValue.str s)) := by
  refine ⟨?_, ?_, ?_⟩
  · intro hcap hmin hmax
    cases s with
    | nil => simp [capitalizedWords, capWordsAux] at hcap
    | cons a t =>
        have hhead : ∀ c, (a :: t : Str).head? = some c → isJsWhitespace c = false := by
          intro c hc
          have hac : a = c := by simpa using hc
          subst hac
          exact letter_not_white _ (Or.inl (capWords_head _ t hcap))
        have hlast : ∀ c, (a :: t : Str).getLast? = some c → isJsWhitespace c = false := by
          intro c hc
          exact letter_not_white c (capWords_last (a :: t) true hcap c hc)
        have htrim : trimStr (a :: t) = a :: t := trimStr_eq_self (a :: t) hhead hlast
        rw [htrim] at hmin hmax
        have hne : (a :: t : Str).isEmpty = false := by simp [List.isEmpty]
        simp only [List.length_cons] at hmin hmax
        simp [createStringFieldErrors, hne, htrim]
        omega
  · intro hlen
    cases s with
    | nil => exact ⟨VErr.stringEmpty, by simp [createStringFieldErrors, List.isEmpty], Or.inl rfl⟩
    | cons a t =>
        refine ⟨VErr.stringMin, ?_, Or.inr rfl⟩
        have hne : (a :: t : Str).isEmpty = false := by simp [List.isEmpty]
        simp only [List.length_cons] at hlen
        simp [createStringFieldErrors, hne, List.mem_append]
        omega
  · intro hlen
    have hne : s.isEmpty = false := by
      cases s with
      | nil => simp at hlen
      | cons a t => simp [List.isEmpty]
    simp [createStringFieldErrors, hne, List.mem_append, hlen]

/-- Witness for C6: `Weekly Update` is accepted under bounds `[3, 50]`;
`Hi` violates the minimum under the same bounds; `Weekly Update` violates
the maximum under bounds `[3, 5]`. -/
theorem subjectField_length_bounds_witness :
    createStringFieldErrors 3 50 (JsonValue.str "Weekly Update".toList) = [] ∧
    (∃ e, e ∈ createStringFieldErrors 3 50 (JsonValue.str "Hi".toList) ∧
        (e = VErr.stringEmpty ∨ e = VErr.stringMin)) ∧
    VErr.stringMax ∈ createStringFieldErrors 3 5 (JsonValue.str "Weekly Update".toList) := by
  refine ⟨?_, ?_, ?_⟩
  · exact (subjectField_length_bounds 3 50 "Weekly Update".toList).1
      (by decide) (by decide) (by decide)
  · exact (subjectField_length_bounds 3 50 "Hi".toList).2.1 (by decide)
  · exact (subjectField_length_bounds 3 5 "Weekly Update".toList).2.2 (by decide)

/-- C4 counterexample: as wired in `sendEmail.routes.js` the validator
middleware is commented out, so a body that fails the schema (here the
empty object, missing both required fields) still reaches the controller
— the Send-Email Use Case is invoked on an invalid payload. -/
theorem route_invokes_use_case_on_invalid_body :
    validateSendEmailBody ⟨3, 50, 5, 100⟩ (JsonValue.obj []) ≠ [] ∧
    runPipeline ⟨3, 50, 5, 100⟩ postHandlers (JsonValue.obj []) =
      some (Outcome.useCaseInvoked (JsonValue.obj [])) :=
  ⟨by decide, rfl⟩

/-- C4 (amended): the validator middleware, when wired into the chain
(the commented-out line restored), short-circuits every invalid body with
the structured validation-error response, so the use case is never
invoked on an invalid payload; the route as committed omits the
validator, so the use case is invoked on every payload. -/
theorem validator_when_wired_short_circuits (b : SchemaBounds) (body : JsonValue)
    (h : validateSendEmailBody b body ≠ []) :
    runPipeline b validatedPostHandlers body =
      some (Outcome.validationError (validateSendEmailBody b body)) := by
  simp [runPipeline, validatedPostHandlers, h]

/-- Witness for the amended C4: the empty object is short-circuited by
the wired-in validator. -/
theorem validator_when_wired_short_circuits_witness :
    runPipeline ⟨3, 50, 5, 100⟩ validatedPostHandlers (JsonValue.obj []) =
      some (Outcome.validationError
        (validateSendEmailBody ⟨3, 50, 5, 100⟩ (JsonValue.obj []))) :=
  validator_when_wired_short_circuits ⟨3, 50, 5, 100⟩ (JsonValue.obj []) (by decide)

/-- Line terminators are JS whitespace. -/
lemma white_of_term (c : Char) (h : isLineTerminator c = true) :
    isJsWhitespace c = true := by
  simp only [isLineTerminator, Bool.or_eq_true, beq_iff_eq] at h
  rcases h with ((rfl | rfl) | rfl) | rfl <;> decide

/-- A non-whitespace character is not a line terminator. -/
lemma notTerm_of_not_white (c : Char) (h : isJsWhitespace c = false) :
    isLineTerminator c = false := by
  cases hterm : isLineTerminator c
  · rfl
  · rw [white_of_term c hterm] at h
    exact absurd h (by simp)

/-- Characters strictly between space and NBSP — all the printable ASCII
the regex character classes use — are not line terminators. -/
lemma notTerm_of_between (c : Char) (hgt : ' ' < c) (hlt : c < '\u00A0') :
    isLineTerminator c = false := by
  simp only [isLineTerminator, Bool.or_eq_false_iff, beq_eq_false_iff_ne, ne_eq]
  repeat' apply And.intro
  all_goals first
    | (rintro rfl; revert hgt; decide)
    | (rintro rfl; revert hlt; decide)

/-- Domain-label characters are not line terminators. -/
lemma notTerm_of_label (c : Char) (h : isLabelChar c = true) :
    isLineTerminator c = false := by
  have hb : ('a' ≤ c ∧ c ≤ 'z') ∨ ('A' ≤ c ∧ c ≤ 'Z') ∨ ('0' ≤ c ∧ c ≤ '9') ∨ c = '-' := by
    simpa [isLabelChar, isAlphaChar, isLowerAZ, isUpperAZ, isDigitChar,
      Bool.or_eq_true, Bool.and_eq_true, decide_eq_true_eq, or_assoc] using h
  rcases hb with hb | hb | hb | rfl
  · exact notTerm_of_between c (lt_of_lt_of_le (by decide) hb.1)
      (lt_of_le_of_lt hb.2 (by decide))
  · exact notTerm_of_between c (lt_of_lt_of_le (by decide) hb.1)
      (lt_of_le_of_lt hb.2 (by decide))
  · exact notTerm_of_between c (lt_of_lt_of_le (by decide) hb.1)
      (lt_of_le_of_lt hb.2 (by decide))
  · decide

/-- Alphabetic characters are not line terminators. -/
lemma notTerm_of_alpha (c : Char) (h : isAlphaChar c = true) :
    isLineTerminator c = false := by
  apply notTerm_of_label
  simp [isLabelChar, h]

/-- Digits are not line terminators. -/
lemma notTerm_of_digit (c : Char) (h : isDigitChar c = true) :
    isLineTerminator c = false := by
  apply notTerm_of_label
  simp [isLabelChar, h]

/-- Local-part atom characters are not line terminators (the class
excludes all whitespace). -/
lemma notTerm_of_localAtom (c : Char) (h : isLocalAtomChar c = true) :
    isLineTerminator c = false := by
  apply notTerm_of_not_white
  simp only [isLocalAtomChar, Bool.and_eq_true, Bool.not_eq_true'] at h
  exact h.2

/-- Splitting on dots always yields at least one part. -/
lemma splitOnDot_ne_nil : ∀ (s : Str), splitOnDot s ≠ [] := by
  intro s
  cases s with
  | nil => simp [splitOnDot]
  | cons a t =>
      simp only [splitOnDot]
      by_cases ha : (a == '.') = true
      · simp [ha]
      · cases h : splitOnDot t <;> simp [ha, h]

/-- Every character of a string is a dot or lies in one of its
dot-separated parts. -/
lemma splitOnDot_chars : ∀ (s : Str) (c : Char), c ∈ s →
    c = '.' ∨ ∃ p, p ∈ splitOnDot s ∧ c ∈ p := by
  intro s
  induction s with
  | nil => simp
  | cons a t ih =>
      intro c hc
      by_cases ha : (a == '.') = true
      · have ha' : a = '.' := by simpa using ha
        rcases List.mem_cons.mp hc with rfl | hc
        · exact Or.inl ha'
        · rcases ih c hc with h | ⟨p, hp, hcp⟩
          · exact Or.inl h
          · exact Or.inr ⟨p, by simp [splitOnDot, ha, List.mem_cons, hp], hcp⟩
      · obtain ⟨p0, ps0, hsplit⟩ : ∃ p0 ps0, splitOnDot t = p0 :: ps0 := by
          cases h : splitOnDot t with
          | nil => exact absurd h (splitOnDot_ne_nil t)
          | cons p0 ps0 => exact ⟨p0, ps0, rfl⟩
        have hres : splitOnDot (a :: t) = (a :: p0) :: ps0 := by
          simp [splitOnDot, ha, hsplit]
        rcases List.mem_cons.mp hc with rfl | hc
        · exact Or.inr ⟨c :: p0, by simp [hres], List.mem_cons_self c p0⟩
        · rcases ih c hc with h | ⟨p, hp, hcp⟩
          · exact Or.inl h
          · rw [hsplit] at hp
            rcases List.mem_cons.mp hp with rfl | hp
            · exact Or.inr ⟨a :: p, by simp [hres], List.mem_cons_of_mem a hcp⟩
            · exact Or.inr ⟨p, by simp [hres, List.mem_cons, hp], hcp⟩

/-- Every decomposition produced by `splitsAt` reassembles the string. -/
lemma splitsAt_eq : ∀ (s l d : Str), (l, d) ∈ splitsAt s → s = l ++ '@' :: d := by
  intro s
  induction s with
  | nil => simp [splitsAt]
  | cons a t ih =>
      intro l d h
      simp only [splitsAt] at h
      rcases List.mem_append.mp h with h1 | h2
      · by_cases ha : (a == '@') = true
        · have ha' : a = '@' := by simpa using ha
          simp only [ha, if_true, List.mem_singleton, Prod.mk.injEq] at h1
          obtain ⟨rfl, rfl⟩ := h1
          simp [ha']
        · simp [ha] at h1
      · rcases List.mem_map.mp h2 with ⟨⟨l', d'⟩, hp, heq⟩
        obtain ⟨rfl, rfl⟩ : a :: l' = l ∧ d' = d := by
          simpa [Prod.ext_iff] using heq
        simp [ih l' d' hp]

/-- Characters accepted by the unquoted local-part scanner are not line
terminators. -/
lemma atomsAux_nonTerm : ∀ (l : Str) (b : Bool), atomsAux b l = true →
    ∀ c ∈ l, isLineTerminator c = false := by
  intro l
  induction l with
  | nil => intro b _ c hc; simp at hc
  | cons a t ih =>
      intro b h c hc
      by_cases ha : (a == '.') = true
      · simp only [atomsAux, ha, if_true, Bool.and_eq_true] at h
        rcases List.mem_cons.mp hc with rfl | hc
        · rw [show c = '.' from by simpa using ha]
          decide
        · exact ih false h.2 c hc
      · simp only [atomsAux, ha, Bool.false_eq_true, if_false, Bool.and_eq_true] at h
        rcases List.mem_cons.mp hc with rfl | hc
        · exact notTerm_of_localAtom c h.1
        · exact ih true h.2 c hc

/-- Characters of a quoted local part are not line terminators. -/
lemma quotedOk_nonTerm (l : Str) (h : quotedOk l = true) :
    ∀ c ∈ l, isLineTerminator c = false := by
  cases l with
  | nil => simp [quotedOk] at h
  | cons a cs =>
      simp only [quotedOk, Bool.and_eq_true] at h
      obtain ⟨⟨⟨h1, h2⟩, h3⟩, h4⟩ := h
      have hne : cs ≠ [] := by
        intro hnil
        rw [hnil] at h2
        simp at h2
      intro c hc
      rcases List.mem_cons.mp hc with rfl | hc
      · rw [show c = '"' from by simpa using h1]
        decide
      · rw [← List.dropLast_append_getLast hne] at hc
        rcases List.mem_append.mp hc with hc | hc
        · have := List.all_eq_true.mp h4 c hc
          simpa using this
        · rw [List.mem_singleton] at hc
          subst hc
          rw [List.getLast?_eq_getLast cs hne] at h2
          rw [show cs.getLast hne = '"' from by simpa using h2]
          decide

/-- Characters of a matching local part are not line terminators. -/
lemma localOk_nonTerm (l : Str) (h : localOk l = true) :
    ∀ c ∈ l, isLineTerminator c = false := by
  simp only [localOk, Bool.or_eq_true] at h
  rcases h with h | h
  · exact atomsAux_nonTerm l false h
  · exact quotedOk_nonTerm l h

/-- Characters of a bracketed-IP domain are not line terminators. -/
lemma ipOk_nonTerm (d : Str) (h : ipOk d = true) :
    ∀ c ∈ d, isLineTerminator c = false := by
  cases d with
  | nil => simp [ipOk] at h
  | cons a cs =>
      simp only [ipOk, Bool.and_eq_true] at h
      obtain ⟨⟨h1, h2⟩, h3⟩ := h
      have hne : cs ≠ [] := by
        intro hnil
        rw [hnil] at h2
        simp at h2
      intro c hc
      rcases List.mem_cons.mp hc with rfl | hc
      · rw [show c = '[' from by simpa using h1]
        decide
      · rw [← List.dropLast_append_getLast hne] at hc
        rcases List.mem_append.mp hc with hc | hc
        · rcases splitOnDot_chars cs.dropLast c hc with rfl | ⟨p, hp, hcp⟩
          · decide
          · have hpok := List.all_eq_true.mp h3.2 p hp
            simp only [Bool.and_eq_true] at hpok
            exact notTerm_of_digit c (List.all_eq_true.mp hpok.2 c hcp)
        · rw [List.mem_singleton] at hc
          subst hc
          rw [List.getLast?_eq_getLast cs hne] at h2
          rw [show cs.getLast hne = ']' from by simpa using h2]
          decide

/-- Characters of a named-host domain are not line terminators. -/
lemma dnsOk_nonTerm (d : Str) (h : dnsOk d = true) :
    ∀ c ∈ d, isLineTerminator c = false := by
  simp only [dnsOk, Bool.and_eq_true] at h
  obtain ⟨⟨h1, h2⟩, h3⟩ := h
  have hne := splitOnDot_ne_nil d
  intro c hc
  rcases splitOnDot_chars d c hc with rfl | ⟨p, hp, hcp⟩
  · decide
  · rw [← List.dropLast_append_getLast hne] at hp
    rcases List.mem_append.mp hp with hp | hp
    · have hpok := List.all_eq_true.mp h2 p hp
      simp only [Bool.and_eq_true] at hpok
      exact notTerm_of_label c (List.all_eq_true.mp hpok.2 c hcp)
    · rw [List.mem_singleton] at hp
      subst hp
      rw [List.getLast?_eq_getLast (splitOnDot d) hne] at h3
      simp only [Bool.and_eq_true] at h3
      exact notTerm_of_alpha c (List.all_eq_true.mp h3.2 c hcp)

/-- Characters of a matching domain are not line terminators. -/
lemma domainOk_nonTerm (d : Str) (h : domainOk d = true) :
    ∀ c ∈ d, isLineTerminator c = false := by
  simp only [domainOk, Bool.or_eq_true] at h
  rcases h with h | h
  · exact ipOk_nonTerm d h
  · exact dnsOk_nonTerm d h

/-- A string matched by the structural part of the `EMAIL` pattern
contains no line terminator. -/
lemma emailShapeOk_nonTerm (s : Str) (h : emailShapeOk s = true) :
    s.all (fun c => !isLineTerminator c) = true := by
  obtain ⟨⟨l, d⟩, hmem, hld⟩ := List.any_eq_true.mp h
  simp only [Bool.and_eq_true] at hld
  obtain ⟨hl, hd⟩ := hld
  rw [splitsAt_eq s l d hmem, List.all_append, List.all_cons]
  simp only [Bool.and_eq_true]
  refine ⟨?_, by decide, ?_⟩
  · exact List.all_eq_true.mpr (fun c hc => by simp [localOk_nonTerm l hl c hc])
  · exact List.all_eq_true.mpr (fun c hc => by simp [domainOk_nonTerm d hd c hc])

/-- If `temp` occurs as a standalone word after a prefix free of line
terminators, the lookahead body `.*\btemp\b` matches from the start of
that prefix. -/
lemma lookahead_finds_temp : ∀ (p : Str) (prev : Option Char) (q : Str),
    (∀ c ∈ p, isLineTerminator c = false) →
    (∀ c, p.getLast? = some c → isWordChar c = false) →
    (p = [] → ∀ c, prev = some c → isWordChar c = false) →
    (∀ c, q.head? = some c → isWordChar c = false) →
    lookaheadTemp prev (p ++ "temp".toList ++ q) = true := by
  intro p
  induction p with
  | nil =>
      intro prev q _ _ hb0 hq
      show lookaheadTemp prev ('t' :: 'e' :: 'm' :: 'p' :: q) = true
      cases prev with
      | none =>
          cases q with
          | nil => decide
          | cons c cs =>
              have hcw : isWordChar c = false := hq c rfl
              simp [lookaheadTemp, wordTempHere, hcw]
      | some pc =>
          have hpw : isWordChar pc = false := hb0 rfl pc rfl
          cases q with
          | nil => simp [lookaheadTemp, wordTempHere, hpw]
          | cons c cs =>
              have hcw : isWordChar c = false := hq c rfl
              simp [lookaheadTemp, wordTempHere, hpw, hcw]
  | cons a p' ih =>
      intro prev q hterm hb hb0 hq
      show lookaheadTemp prev (a :: (p' ++ "temp".toList ++ q)) = true
      have ha : isLineTerminator a = false := hterm a (List.mem_cons_self a p')
      have hrec : lookaheadTemp (some a) (p' ++ "temp".toList ++ q) = true := by
        apply ih (some a) q
        · intro c hc
          exact hterm c (List.mem_cons_of_mem a hc)
        · intro c hc
          apply hb
          cases p' with
          | nil => simp at hc
          | cons b p'' =>
              rw [List.getLast?_cons_cons]
              exact hc
        · intro hp' c hc
          have hac : a = c := by simpa using hc
          subst hac
          apply hb
          rw [hp']
          simp
        · exact hq
      simp only [lookaheadTemp, Bool.or_eq_true]
      refine Or.inr ?_
      rw [ha, hrec]
      decide

/-- C10: The email field also rejects every string containing `temp` as a
standalone word (no word character adjacent on either side): the `EMAIL`
pattern of `patterns.constants.js` fails — through its negative lookahead
when the string is otherwise matchable, and structurally when it holds a
line terminator — so the `string.pattern.base` violation is collected. -/
theorem emailPattern_rejects_standalone_temp (emin emax : Nat) (s : Str)
    (h : hasStandaloneTemp s) :
    matchesEmailPattern s = false ∧
    VErr.patternBase ∈ emailFieldErrors emin emax (JsonValue.str s) := by
  obtain ⟨p, q, hs, hbp, hbq⟩ := h
  have hfalse : matchesEmailPattern s = false := by
    cases hall : s.all (fun c => !isLineTerminator c) with
    | false =>
        cases hsh : emailShapeOk s with
        | false =>
            unfold matchesEmailPattern
            rw [hsh, Bool.and_false]
        | true =>
            rw [emailShapeOk_nonTerm s hsh] at hall
            exact absurd hall (by simp)
    | true =>
        have hterm : ∀ c ∈ p, isLineTerminator c = false := by
          intro c hc
          have hmem : c ∈ s := by
            rw [hs]
            simp [List.mem_append, hc]
          simpa using List.all_eq_true.mp hall c hmem
        have hla : lookaheadTemp none s = true := by
          rw [hs]
          exact lookahead_finds_temp p none q hterm hbp (fun _ c hc => by simp at hc) hbq
        unfold matchesEmailPattern
        rw [hla, Bool.not_true, Bool.false_and]
  have hne : s.isEmpty = false := by
    rw [hs]
    cases p <;> simp [List.isEmpty]
  refine ⟨hfalse, ?_⟩
  simp [emailFieldErrors, hne, hfalse, List.mem_append]

/-- Witness for C10: `user@temp.mail.com` — a string none of the three
spec-listed substrings match — is rejected through the standalone-word
`temp` lookahead. -/
theorem emailPattern_rejects_standalone_temp_witness :
    matchesEmailPattern "user@temp.mail.com".toList = false ∧
    VErr.patternBase ∈ emailFieldErrors 5 100 (JsonValue.str "user@temp.mail.com".toList) :=
  emailPattern_rejects_standalone_temp 5 100 "user@temp.mail.com".toList
    ⟨"user@".toList, ".mail.com".toList, by decide,
      fun c hc => by
        have hlast : ("user@".toList).getLast? = some '@' := by decide
        rw [hlast] at hc
        have hx : '@' = c := by simpa using hc
        subst hx
        decide,
      fun c hc => by
        have hhead : (".mail.com".toList).head? = some '.' := by decide
        rw [hhead] at hc
        have hx : '.' = c := by simpa using hc
        subst hx
        decide⟩
